import Mathlib

/-!
Shallow embedding of the notes-store backend (src/src-tauri/src/main.rs).

The program is a CRUD store over a single directory of Markdown files.
We model the notes directory as a list of directory entries, each with a
file name, a regular-file flag, and an optional content (where "none"
models a file whose content cannot be read).  Paths are strings joined
with a slash, as on the Unix filesystems the program runs on.
-/

namespace NotesStore

/-- Decidable equality for fallible results, so that concrete runs of the
embedded operations can be checked by evaluation. -/
instance {ε α : Type} [DecidableEq ε] [DecidableEq α] : DecidableEq (Except ε α)
  | .error a, .error b => decidable_of_iff (a = b) (by rw [Except.error.injEq])
  | .error _, .ok _ => .isFalse (by intro h; cases h)
  | .ok _, .error _ => .isFalse (by intro h; cases h)
  | .ok a, .ok b => decidable_of_iff (a = b) (by rw [Except.ok.injEq])

/-- Characters kept by sanitize_id: ASCII alphanumerics, underscore, hyphen
(Rust: ch.is_ascii_alphanumeric() || ch == '_' || ch == '-'; Lean's
Char.isAlphanum tests exactly the ASCII ranges a-z, A-Z, 0-9). -/
def isAllowedChar (c : Char) : Bool :=
  c.isAlphanum || c == '_' || c == '-'

/-- Embedding of sanitize_id: keep only the allowed characters, in order;
if nothing survives, fall back to the literal "note". -/
def sanitize_id (raw : String) : String :=
  let out : String := ⟨raw.data.filter isAllowedChar⟩
  if out.data.isEmpty then "note" else out

/-- Embedding of note_path: dir.join(format!("{id}.md")). -/
def note_path (dir : String) (id : String) : String :=
  dir ++ "/" ++ (id ++ ".md")

/-- Extension of a file name, following Rust Path::extension: the part after
the last dot, provided some dot occurs at index at least 1 (a name that
starts with its only dot, like ".md", has no extension). -/
def fileExt (name : String) : Option String :=
  if (name.data.drop 1).contains '.' then
    some ⟨(name.data.reverse.takeWhile (fun c => c ≠ '.')).reverse⟩
  else none

/-- Stem of a file name, following Rust Path::file_stem: the part before
the last dot when an extension exists, the whole name otherwise. -/
def fileStem (name : String) : Option String :=
  if name.data.isEmpty then none
  else if (name.data.drop 1).contains '.' then
    some ⟨name.data.take (name.data.length -
      (name.data.reverse.takeWhile (fun c => c ≠ '.')).length - 1)⟩
  else some name

/-- Rust str::eq_ignore_ascii_case, where Lean's Char.toLower lowers exactly
the ASCII uppercase range. -/
def eqIgnoreAsciiCase (a b : String) : Bool :=
  a.data.map Char.toLower == b.data.map Char.toLower

/-- Embedding of is_md_file, applied to the file-name component of the path. -/
def is_md_file (name : String) : Bool :=
  match fileExt name with
  | some e => eqIgnoreAsciiCase e "md"
  | none => false

/-- Last component of a slash-separated path (Rust Path::file_name for the
paths this program builds, which never end in a separator). -/
def path_file_name (p : String) : String :=
  ⟨(p.data.reverse.takeWhile (fun c => c ≠ '/')).reverse⟩

/-- Rust Path::file_stem on a full path: the stem of its last component. -/
def path_file_stem (p : String) : Option String :=
  fileStem (path_file_name p)

/-- One entry of the notes directory.  A content of none models a file
whose bytes cannot be read back (the read_to_string failure case). -/
structure DirEntry where
  name : String
  isFile : Bool
  content : Option String
deriving DecidableEq

/-- The record returned for one note (struct NoteRecord in the source;
struct CreateNoteResponse has the same three fields). -/
structure NoteRecord where
  id : String
  path : String
  content : String
deriving DecidableEq

/-- Embedding of Rust str::cmp as a boolean less-or-equal: lexicographic
comparison of the character sequences (UTF-8 byte order and code-point
order agree). -/
def lexLe : List Char → List Char → Bool
  | [], _ => true
  | _ :: _, [] => false
  | a :: as, b :: bs => if a < b then true else if b < a then false else lexLe as bs

/-- Comparator used by list_notes: notes.sort_by(|a, b| b.id.cmp(&a.id)),
that is, descending by id under plain string comparison. -/
def descById (a b : NoteRecord) : Bool :=
  lexLe b.id.data a.id.data

/-- The body of the for-loop of list_notes: walk the directory entries in
order, skip entries that are not regular files with an md extension and a
non-empty stem, read each kept file (aborting the whole listing on a read
failure), and collect the records in encounter order. -/
def list_collect (dir : String) : List DirEntry → Except String (List NoteRecord)
  | [] => .ok []
  | e :: es =>
    if !e.isFile || !is_md_file e.name then
      list_collect dir es
    else
      let id := (fileStem e.name).getD ""
      if id.data.isEmpty then
        list_collect dir es
      else
        match e.content with
        | none =>
          .error ("Failed to read note content (" ++ dir ++ "/" ++ e.name ++ ")")
        | some c =>
          (list_collect dir es).map
            (fun rest => ⟨id, dir ++ "/" ++ e.name, c⟩ :: rest)

/-- Embedding of list_notes: collect the markdown entries, then sort the
records descending by id. -/
def list_notes (dir : String) (fs : List DirEntry) : Except String (List NoteRecord) :=
  (list_collect dir fs).map (fun notes => notes.mergeSort descById)

/-- Candidate id tried at a given attempt of create_note's loop: the
sanitized generated id itself first, then that id with an underscore and
the attempt number appended, re-sanitized. -/
def candidate_id (id : String) (attempt : Nat) : String :=
  if attempt == 0 then id else sanitize_id (id ++ "_" ++ toString attempt)

/-- const MAX_TRIES: usize = 5. -/
def MAX_TRIES : Nat := 5

/-- The retry loop of create_note.  The oracle gives, for each candidate
stem, the outcome of the exclusive create (OpenOptions::create_new) of
note_path(dir, stem): none on success, some message on any failure.  On
success the loop answers the winning stem; after MAX_TRIES failed opens it
answers the error built from the last open failure. -/
def create_loop (f : String → Option String) (id : String) (attempt : Nat) :
    Except String String :=
  let cand := candidate_id id attempt
  match f cand with
  | none => .ok cand
  | some e =>
    if attempt + 1 ≥ MAX_TRIES then
      .error ("Failed to create note file after 5 tries: " ++ e)
    else
      create_loop f id (attempt + 1)
termination_by MAX_TRIES - attempt
decreasing_by simp [MAX_TRIES] at *; omega

/-- Embedding of create_note over an exclusive-open oracle: sanitize the
generated id, run the retry loop, and report the id re-derived from the
file stem of the created path, that path, and the empty initial content. -/
def create_note (dir : String) (genId : String) (f : String → Option String) :
    Except String NoteRecord :=
  let id := sanitize_id genId
  match create_loop f id 0 with
  | .error e => .error e
  | .ok stem =>
    let finalPath := note_path dir stem
    .ok ⟨(path_file_stem finalPath).getD id, finalPath, ""⟩

/-- Exclusive-open outcome derived from the directory state: create_new
fails (with the usual collision message) exactly when a file of that name
already exists. -/
def fsOpen (fs : List DirEntry) (stem : String) : Option String :=
  if fs.any (fun e => e.name == stem ++ ".md") then
    some "File exists (os error 17)"
  else
    none

/-- Embedding of create_note as a state transformer on the directory:
on success the chosen file is created with empty content. -/
def create_note_fs (dir : String) (genId : String) (fs : List DirEntry) :
    Except String (NoteRecord × List DirEntry) :=
  let id := sanitize_id genId
  match create_loop (fsOpen fs) id 0 with
  | .error e => .error e
  | .ok stem =>
    let finalPath := note_path dir stem
    .ok (⟨(path_file_stem finalPath).getD id, finalPath, ""⟩,
      fs ++ [⟨stem ++ ".md", true, some ""⟩])

/-- Embedding of update_note: fs::write at the derived path, that is,
create-or-truncate.  Writing over an existing directory entry that is not
a regular file is the error case of fs::write. -/
def update_note (dir : String) (fs : List DirEntry) (reqId : String)
    (reqContent : String) : Except String (List DirEntry) :=
  let id := sanitize_id reqId
  let name := id ++ ".md"
  match fs.find? (fun e => e.name == name) with
  | some e =>
    if e.isFile then
      .ok (fs.map (fun x => if x.name == name then ⟨x.name, x.isFile, some reqContent⟩ else x))
    else
      .error "Failed to write note file: is a directory"
  | none => .ok (fs ++ [⟨name, true, some reqContent⟩])

/-- Outcome of fs::remove_file, as matched on by delete_note. -/
inductive RmResult where
  | removed : RmResult
  | notFound : RmResult
  | otherErr : String → RmResult
deriving DecidableEq

/-- The match expression of delete_note on the remove_file outcome:
success and not-found both answer Ok, every other failure propagates. -/
def delete_match (r : RmResult) : Except String Unit :=
  match r with
  | .removed => .ok ()
  | .notFound => .ok ()
  | .otherErr e => .error ("Failed to delete note file: " ++ e)

/-- Embedding of delete_note as a state transformer on the directory:
remove the file at the derived path, treating a missing file as success;
removing an entry that is not a regular file is remove_file's error case. -/
def delete_note (dir : String) (fs : List DirEntry) (reqId : String) :
    Except String (List DirEntry) :=
  let id := sanitize_id reqId
  let name := id ++ ".md"
  match fs.find? (fun e => e.name == name) with
  | some e =>
    if e.isFile then
      .ok (fs.filter (fun x => !(x.name == name)))
    else
      .error "Failed to delete note file: is a directory"
  | none => .ok fs

/-- The filter of list_notes, as a predicate on one directory entry:
regular file, md extension (case-insensitive), non-empty stem. -/
def keptEntry (e : DirEntry) : Bool :=
  e.isFile && is_md_file e.name && !((fileStem e.name).getD "").data.isEmpty

/-- The record list_notes builds for one kept entry. -/
def entryRecord (dir : String) (e : DirEntry) : NoteRecord :=
  ⟨(fileStem e.name).getD "", dir ++ "/" ++ e.name, e.content.getD ""⟩

/-! Basic facts about the sanitizer. -/

theorem sanitize_id_of_filter_ne_nil {raw : String}
    (h : raw.data.filter isAllowedChar ≠ []) :
    sanitize_id raw = ⟨raw.data.filter isAllowedChar⟩ := by
  unfold sanitize_id
  simp only [List.isEmpty_iff]
  rw [if_neg h]

theorem sanitize_id_of_filter_eq_nil {raw : String}
    (h : raw.data.filter isAllowedChar = []) :
    sanitize_id raw = "note" := by
  unfold sanitize_id
  simp only [List.isEmpty_iff]
  rw [if_pos h]

theorem sanitize_id_ne_empty (raw : String) : (sanitize_id raw).data ≠ [] := by
  by_cases h : raw.data.filter isAllowedChar = []
  · rw [sanitize_id_of_filter_eq_nil h]
    decide
  · rw [sanitize_id_of_filter_ne_nil h]
    exact h

theorem sanitize_id_allowed (raw : String) :
    ∀ c ∈ (sanitize_id raw).data, isAllowedChar c = true := by
  by_cases h : raw.data.filter isAllowedChar = []
  · rw [sanitize_id_of_filter_eq_nil h]
    decide
  · rw [sanitize_id_of_filter_ne_nil h]
    intro c hc
    exact List.of_mem_filter hc

theorem sanitize_id_no_slash (raw : String) : '/' ∉ (sanitize_id raw).data := by
  intro h
  have := sanitize_id_allowed raw '/' h
  simp [isAllowedChar] at this

theorem sanitize_id_no_backslash (raw : String) : '\\' ∉ (sanitize_id raw).data := by
  intro h
  have := sanitize_id_allowed raw '\\' h
  simp [isAllowedChar] at this

theorem sanitize_id_no_dot (raw : String) : '.' ∉ (sanitize_id raw).data := by
  intro h
  have := sanitize_id_allowed raw '.' h
  simp [isAllowedChar] at this

/-! Facts about file-name parsing on the names this program builds. -/

theorem takeWhile_append_of_all {p : Char → Bool} (xs ys : List Char)
    (h : ∀ c ∈ xs, p c = true) :
    (xs ++ ys).takeWhile p = xs ++ ys.takeWhile p := by
  rw [List.takeWhile_append]
  rw [List.takeWhile_eq_self_iff.mpr h]
  simp

theorem path_file_name_join (dir name : String) (h : '/' ∉ name.data) :
    path_file_name (dir ++ "/" ++ name) = name := by
  unfold path_file_name
  rw [String.data_append, String.data_append]
  have hrev : (dir.data ++ "/".data ++ name.data).reverse
      = name.data.reverse ++ ('/' :: dir.data.reverse) := by
    simp
  rw [hrev]
  rw [takeWhile_append_of_all]
  · simp
  · intro c hc
    simp only [List.mem_reverse] at hc
    simp only [decide_eq_true_eq]
    intro heq
    exact h (heq ▸ hc)

theorem fileExt_md (stem : String) (hne : stem.data ≠ []) (hdot : '.' ∉ stem.data) :
    fileExt (stem ++ ".md") = some "md" := by
  unfold fileExt
  rw [String.data_append]
  have hcontains : ((stem.data ++ ".md".data).drop 1).contains '.' = true := by
    cases hd : stem.data with
    | nil => exact absurd hd hne
    | cons c cs =>
      simp [List.contains_eq_any_beq]
  rw [if_pos hcontains]
  have hrev : (stem.data ++ ".md".data).reverse = 'd' :: 'm' :: '.' :: stem.data.reverse := by
    simp
  rw [hrev]
  simp [List.takeWhile]

theorem fileStem_md (stem : String) (hne : stem.data ≠ []) (hdot : '.' ∉ stem.data) :
    fileStem (stem ++ ".md") = some stem := by
  unfold fileStem
  rw [String.data_append]
  have hne2 : ¬ (stem.data ++ ".md".data).isEmpty = true := by simp
  rw [if_neg hne2]
  have hcontains : ((stem.data ++ ".md".data).drop 1).contains '.' = true := by
    cases hd : stem.data with
    | nil => exact absurd hd hne
    | cons c cs =>
      simp [List.contains_eq_any_beq]
  rw [if_pos hcontains]
  have hrev : (stem.data ++ ".md".data).reverse = 'd' :: 'm' :: '.' :: stem.data.reverse := by
    simp
  rw [hrev]
  have htk : (('d' :: 'm' :: '.' :: stem.data.reverse).takeWhile fun c => c ≠ '.')
      = ['d', 'm'] := by
    simp [List.takeWhile]
  rw [htk]
  have hlen : (stem.data ++ ".md".data).length = stem.data.length + 3 := by simp
  simp only [hlen, List.length_cons, List.length_nil]
  have harith : stem.data.length + 3 - (0 + 1 + 1) - 1 = stem.data.length := by omega
  rw [harith]
  rw [List.take_append_of_le_length (by omega)]
  rw [List.take_length]

theorem is_md_file_md (stem : String) (hne : stem.data ≠ []) (hdot : '.' ∉ stem.data) :
    is_md_file (stem ++ ".md") = true := by
  unfold is_md_file
  rw [fileExt_md stem hne hdot]
  decide

/-- C1, counterexample to the claim as stated: sanitize_id can return the
string "note" even though the input does contain characters from
[A-Za-z0-9_-], so "returns the fallback iff the input contains no such
characters" fails in the only-if direction at the input "note!". -/
theorem C1_sanitize_counterexample :
    sanitize_id "note!" = "note" ∧ "note!".data.any isAllowedChar = true := by
  constructor
  · decide
  · decide

/-- C1 (amended): sanitize_id is a pure total function; its output is
non-empty, consists only of characters from [A-Za-z0-9_-], is exactly the
subsequence of allowed input characters whenever any survive, and is the
fallback literal "note" if the input contains no allowed character.  The
converse direction of the original iff holds only up to the weaker
statement that an output of "note" means the allowed characters of the
input are either absent or spell exactly the four letters of "note". -/
theorem C1_sanitize_amended (raw : String) :
    (sanitize_id raw).data ≠ []
    ∧ (∀ c ∈ (sanitize_id raw).data, isAllowedChar c = true)
    ∧ ((∀ c ∈ raw.data, isAllowedChar c = false) → sanitize_id raw = "note")
    ∧ (raw.data.filter isAllowedChar ≠ [] →
        sanitize_id raw = ⟨raw.data.filter isAllowedChar⟩)
    ∧ (sanitize_id raw = "note" →
        raw.data.filter isAllowedChar = [] ∨
          raw.data.filter isAllowedChar = "note".data) := by
  refine ⟨sanitize_id_ne_empty raw, sanitize_id_allowed raw, ?_, ?_, ?_⟩
  · intro h
    apply sanitize_id_of_filter_eq_nil
    rw [List.filter_eq_nil_iff]
    intro c hc
    rw [h c hc]
    decide
  · exact fun h => sanitize_id_of_filter_ne_nil h
  · intro h
    by_cases hf : raw.data.filter isAllowedChar = []
    · exact Or.inl hf
    · right
      have := (sanitize_id_of_filter_ne_nil hf).symm.trans h
      exact congrArg String.data this

/-- C1 witness: the amended theorem applied at the spec's two examples. -/
theorem C1_sanitize_witness :
    sanitize_id "../../etc/passwd" = "etcpasswd" ∧ sanitize_id "!!!" = "note" := by
  constructor
  · have h := (C1_sanitize_amended "../../etc/passwd").2.2.2.1 (by decide)
    rw [h]
    decide
  · exact (C1_sanitize_amended "!!!").2.2.1 (by decide)

/-- C2: for every raw identifier and notes directory, the derived path
note_path dir (sanitize_id raw) is the directory followed by a single
non-empty file-name component that contains no path separator and is not
a traversal component, so the file is a direct child of the directory. -/
theorem C2_path_containment (dir raw : String) :
    note_path dir (sanitize_id raw) = dir ++ "/" ++ (sanitize_id raw ++ ".md")
    ∧ (sanitize_id raw ++ ".md").data ≠ []
    ∧ '/' ∉ (sanitize_id raw ++ ".md").data
    ∧ '\\' ∉ (sanitize_id raw ++ ".md").data
    ∧ sanitize_id raw ++ ".md" ≠ "."
    ∧ sanitize_id raw ++ ".md" ≠ ".."
    ∧ path_file_name (note_path dir (sanitize_id raw)) = sanitize_id raw ++ ".md" := by
  have hdata : (sanitize_id raw ++ ".md").data = (sanitize_id raw).data ++ ".md".data :=
    String.data_append _ _
  have hnosl : '/' ∉ (sanitize_id raw ++ ".md").data := by
    rw [hdata]
    intro h
    rcases List.mem_append.mp h with h1 | h1
    · exact sanitize_id_no_slash raw h1
    · revert h1
      decide
  have hlen : (sanitize_id raw ++ ".md").data.length = (sanitize_id raw).data.length + 3 := by
    rw [hdata]
    simp
  have hpos : (sanitize_id raw).data.length ≠ 0 :=
    fun h => sanitize_id_ne_empty raw (List.eq_nil_of_length_eq_zero h)
  refine ⟨rfl, ?_, hnosl, ?_, ?_, ?_, ?_⟩
  · intro h
    rw [h] at hlen
    simp at hlen
  · rw [hdata]
    intro h
    rcases List.mem_append.mp h with h1 | h1
    · exact sanitize_id_no_backslash raw h1
    · revert h1
      decide
  · intro h
    have := congrArg (fun s => s.data.length) h
    simp only at this
    rw [hlen] at this
    simp at this
  · intro h
    have := congrArg (fun s => s.data.length) h
    simp only at this
    rw [hlen] at this
    simp at this
  · exact path_file_name_join dir _ hnosl

/-- C2 witness: the containment theorem applied at a traversal attempt. -/
theorem C2_path_containment_witness :
    note_path "/data/notes" (sanitize_id "../../etc/passwd")
      = "/data/notes" ++ "/" ++ (sanitize_id "../../etc/passwd" ++ ".md")
    ∧ '/' ∉ (sanitize_id "../../etc/passwd" ++ ".md").data :=
  ⟨(C2_path_containment "/data/notes" "../../etc/passwd").1,
    (C2_path_containment "/data/notes" "../../etc/passwd").2.2.1⟩

/-! Facts about update_note and delete_note. -/

theorem find?_name_map (fs : List DirEntry) (g : DirEntry → DirEntry) (tname : String)
    (hg : ∀ x, (g x).name = x.name) :
    (fs.map g).find? (fun x => x.name == tname)
      = (fs.find? (fun x => x.name == tname)).map g := by
  induction fs with
  | nil => rfl
  | cons e es ih =>
    rw [List.map_cons, List.find?_cons, List.find?_cons, hg e]
    cases h : (e.name == tname) with
    | true => rfl
    | false => exact ih

/-- The per-entry action of a successful fs::write in update_note. -/
def writeEntry (tname content : String) (x : DirEntry) : DirEntry :=
  if x.name == tname then ⟨x.name, x.isFile, some content⟩ else x

theorem writeEntry_name (tname content : String) (x : DirEntry) :
    (writeEntry tname content x).name = x.name := by
  unfold writeEntry
  by_cases h : (x.name == tname) = true
  · rw [if_pos h]
  · rw [if_neg h]

theorem writeEntry_idem (tname content : String) (x : DirEntry) :
    writeEntry tname content (writeEntry tname content x) = writeEntry tname content x := by
  unfold writeEntry
  by_cases h : (x.name == tname) = true
  · rw [if_pos h]
    simp [h]
  · rw [if_neg h, if_neg h]

theorem update_note_found (dir : String) (fs : List DirEntry) (id content : String)
    (e0 : DirEntry)
    (hfind : fs.find? (fun e => e.name == sanitize_id id ++ ".md") = some e0)
    (hfile : e0.isFile = true) :
    update_note dir fs id content
      = .ok (fs.map (writeEntry (sanitize_id id ++ ".md") content)) := by
  unfold update_note
  dsimp only
  rw [hfind]
  dsimp only
  rw [if_pos hfile]
  rfl

theorem update_note_absent (dir : String) (fs : List DirEntry) (id content : String)
    (hfind : fs.find? (fun e => e.name == sanitize_id id ++ ".md") = none) :
    update_note dir fs id content
      = .ok (fs ++ [⟨sanitize_id id ++ ".md", true, some content⟩]) := by
  unfold update_note
  dsimp only
  rw [hfind]

theorem update_note_notfile (dir : String) (fs : List DirEntry) (id content : String)
    (e0 : DirEntry)
    (hfind : fs.find? (fun e => e.name == sanitize_id id ++ ".md") = some e0)
    (hfile : ¬ e0.isFile = true) :
    update_note dir fs id content
      = .error "Failed to write note file: is a directory" := by
  unfold update_note
  dsimp only
  rw [hfind]
  dsimp only
  rw [if_neg hfile]

theorem delete_note_found (dir : String) (fs : List DirEntry) (id : String)
    (e0 : DirEntry)
    (hfind : fs.find? (fun e => e.name == sanitize_id id ++ ".md") = some e0)
    (hfile : e0.isFile = true) :
    delete_note dir fs id
      = .ok (fs.filter (fun x => !(x.name == sanitize_id id ++ ".md"))) := by
  unfold delete_note
  dsimp only
  rw [hfind]
  dsimp only
  rw [if_pos hfile]

theorem delete_note_absent (dir : String) (fs : List DirEntry) (id : String)
    (hfind : fs.find? (fun e => e.name == sanitize_id id ++ ".md") = none) :
    delete_note dir fs id = .ok fs := by
  unfold delete_note
  dsimp only
  rw [hfind]

theorem delete_note_notfile (dir : String) (fs : List DirEntry) (id : String)
    (e0 : DirEntry)
    (hfind : fs.find? (fun e => e.name == sanitize_id id ++ ".md") = some e0)
    (hfile : ¬ e0.isFile = true) :
    delete_note dir fs id
      = .error "Failed to delete note file: is a directory" := by
  unfold delete_note
  dsimp only
  rw [hfind]
  dsimp only
  rw [if_neg hfile]

theorem find?_append_self (fs : List DirEntry) (tname : String) (c : Option String)
    (hfind : fs.find? (fun e => e.name == tname) = none) :
    (fs ++ [(⟨tname, true, c⟩ : DirEntry)]).find? (fun e => e.name == tname)
      = some ⟨tname, true, c⟩ := by
  rw [List.find?_append, hfind, Option.none_or]
  exact List.find?_cons_of_pos _ (by simp)

theorem writeEntry_self (tname content : String) (b : Bool) (c : Option String) :
    writeEntry tname content ⟨tname, b, c⟩ = ⟨tname, b, some content⟩ := by
  unfold writeEntry
  rw [if_pos (by simp)]

theorem map_writeEntry_of_find?_none (fs : List DirEntry) (tname content : String)
    (hfind : fs.find? (fun e => e.name == tname) = none) :
    fs.map (writeEntry tname content) = fs := by
  have h : ∀ x ∈ fs, writeEntry tname content x = x := by
    intro x hx
    unfold writeEntry
    rw [if_neg (List.find?_eq_none.mp hfind x hx)]
  rw [List.map_congr_left h]
  exact List.map_id fs

/-- C5: a successful update leaves the file at the derived name holding
exactly the supplied content; updating a name with no entry silently
creates the file (create-or-truncate, no existence check); and running the
same update again succeeds and changes nothing further (idempotence). -/
theorem C5_update_overwrite (dir : String) (fs : List DirEntry) (id content : String) :
    (∀ fs', update_note dir fs id content = .ok fs' →
      ∃ e, fs'.find? (fun x => x.name == sanitize_id id ++ ".md") = some e
        ∧ e.content = some content ∧ e.isFile = true)
    ∧ (fs.find? (fun e => e.name == sanitize_id id ++ ".md") = none →
      update_note dir fs id content
        = .ok (fs ++ [⟨sanitize_id id ++ ".md", true, some content⟩]))
    ∧ (∀ fs', update_note dir fs id content = .ok fs' →
      update_note dir fs' id content = .ok fs') := by
  refine ⟨?_, fun hfind => update_note_absent dir fs id content hfind, ?_⟩
  · intro fs' h
    cases hfind : fs.find? (fun e => e.name == sanitize_id id ++ ".md") with
    | none =>
      rw [update_note_absent dir fs id content hfind] at h
      cases h
      exact ⟨⟨sanitize_id id ++ ".md", true, some content⟩,
        find?_append_self fs _ _ hfind, rfl, rfl⟩
    | some e0 =>
      by_cases hfile : e0.isFile = true
      · rw [update_note_found dir fs id content e0 hfind hfile] at h
        cases h
        have he0 : (e0.name == sanitize_id id ++ ".md") = true :=
          @List.find?_some DirEntry (fun e => e.name == sanitize_id id ++ ".md") e0 fs hfind
        refine ⟨writeEntry (sanitize_id id ++ ".md") content e0, ?_, ?_, ?_⟩
        · rw [find?_name_map fs _ _ (writeEntry_name _ _), hfind]
          rfl
        · unfold writeEntry
          rw [if_pos he0]
        · unfold writeEntry
          rw [if_pos he0]
          exact hfile
      · rw [update_note_notfile dir fs id content e0 hfind hfile] at h
        cases h
  · intro fs' h
    cases hfind : fs.find? (fun e => e.name == sanitize_id id ++ ".md") with
    | none =>
      rw [update_note_absent dir fs id content hfind] at h
      cases h
      rw [update_note_found dir _ id content ⟨sanitize_id id ++ ".md", true, some content⟩
        (find?_append_self fs _ _ hfind) rfl]
      rw [List.map_append, map_writeEntry_of_find?_none fs _ content hfind]
      rw [List.map_cons, List.map_nil, writeEntry_self]
    | some e0 =>
      by_cases hfile : e0.isFile = true
      · rw [update_note_found dir fs id content e0 hfind hfile] at h
        cases h
        have he0 : (e0.name == sanitize_id id ++ ".md") = true :=
          @List.find?_some DirEntry (fun e => e.name == sanitize_id id ++ ".md") e0 fs hfind
        have hfind2 : (fs.map (writeEntry (sanitize_id id ++ ".md") content)).find?
            (fun e => e.name == sanitize_id id ++ ".md")
            = some (writeEntry (sanitize_id id ++ ".md") content e0) := by
          rw [find?_name_map fs _ _ (writeEntry_name _ _), hfind]
          rfl
        have hfile2 : (writeEntry (sanitize_id id ++ ".md") content e0).isFile = true := by
          unfold writeEntry
          rw [if_pos he0]
          exact hfile
        rw [update_note_found dir _ id content _ hfind2 hfile2]
        have hcomp : (writeEntry (sanitize_id id ++ ".md") content) ∘
            (writeEntry (sanitize_id id ++ ".md") content)
            = writeEntry (sanitize_id id ++ ".md") content :=
          funext (writeEntry_idem (sanitize_id id ++ ".md") content)
        rw [List.map_map, hcomp]
      · rw [update_note_notfile dir fs id content e0 hfind hfile] at h
        cases h

/-- C5 witness: creating by update, then updating again, on a concrete
directory. -/
theorem C5_update_overwrite_witness :
    update_note "/d" [] "q" "X" = .ok [⟨"q.md", true, some "X"⟩]
    ∧ update_note "/d" [⟨"q.md", true, some "X"⟩] "q" "X"
      = .ok [⟨"q.md", true, some "X"⟩] := by
  have h1 := (C5_update_overwrite "/d" [] "q" "X").2.1 (by decide)
  have h2 : update_note "/d" [] "q" "X" = .ok [⟨"q.md", true, some "X"⟩] := by
    rw [h1]
    decide
  exact ⟨h2, (C5_update_overwrite "/d" [] "q" "X").2.2 _ h2⟩

/-- C6: delete_note's match treats removal success and a missing file both
as success while any other removal failure propagates as an error; on the
directory model, deleting a name with no entry succeeds and leaves the
directory unchanged, a successful delete leaves no entry with the derived
name, and deleting again after a successful delete succeeds with no
further change (idempotence). -/
theorem C6_delete_idempotent (dir : String) (fs : List DirEntry) (id msg : String) :
    delete_match RmResult.notFound = .ok ()
    ∧ delete_match (RmResult.otherErr msg)
      = .error ("Failed to delete note file: " ++ msg)
    ∧ ((∀ x ∈ fs, ¬ x.name = sanitize_id id ++ ".md") → delete_note dir fs id = .ok fs)
    ∧ (∀ fs', delete_note dir fs id = .ok fs' →
        (∀ x ∈ fs', ¬ x.name = sanitize_id id ++ ".md")
        ∧ delete_note dir fs' id = .ok fs') := by
  have hnone : ∀ l : List DirEntry, (∀ x ∈ l, ¬ x.name = sanitize_id id ++ ".md") →
      l.find? (fun e => e.name == sanitize_id id ++ ".md") = none := by
    intro l hl
    rw [List.find?_eq_none]
    intro x hx
    simpa using hl x hx
  refine ⟨rfl, rfl, fun h => delete_note_absent dir fs id (hnone fs h), ?_⟩
  intro fs' h
  have hmem : ∀ x ∈ fs', ¬ x.name = sanitize_id id ++ ".md" := by
    cases hfind : fs.find? (fun e => e.name == sanitize_id id ++ ".md") with
    | none =>
      rw [delete_note_absent dir fs id hfind] at h
      cases h
      intro x hx
      simpa using List.find?_eq_none.mp hfind x hx
    | some e0 =>
      by_cases hfile : e0.isFile = true
      · rw [delete_note_found dir fs id e0 hfind hfile] at h
        cases h
        intro x hx
        simpa using (List.mem_filter.mp hx).2
      · rw [delete_note_notfile dir fs id e0 hfind hfile] at h
        cases h
  exact ⟨hmem, delete_note_absent dir fs' id (hnone fs' hmem)⟩

/-- C6 witness: deleting an absent note succeeds and leaves the directory
unchanged, and a non-missing removal failure propagates. -/
theorem C6_delete_idempotent_witness :
    delete_note "/d" [⟨"other.md", true, some "o"⟩] "ghost"
      = .ok [⟨"other.md", true, some "o"⟩]
    ∧ delete_match (RmResult.otherErr "permission denied")
      = .error ("Failed to delete note file: " ++ "permission denied") := by
  constructor
  · exact (C6_delete_idempotent "/d" [⟨"other.md", true, some "o"⟩] "ghost" "").2.2.1
      (by decide)
  · exact (C6_delete_idempotent "/d" [] "ghost" "permission denied").2.1

/-- C10: a successful update touches only the file at the derived name and
a successful delete removes only that file: an entry under any other name
is present, with the same flag and content, before the operation exactly
when it is present after it. -/
theorem C10_frame (dir : String) (fs : List DirEntry) (id content : String) :
    (∀ fs', update_note dir fs id content = .ok fs' →
      ∀ e : DirEntry, ¬ e.name = sanitize_id id ++ ".md" → (e ∈ fs ↔ e ∈ fs'))
    ∧ (∀ fs', delete_note dir fs id = .ok fs' →
      ∀ e : DirEntry, ¬ e.name = sanitize_id id ++ ".md" → (e ∈ fs ↔ e ∈ fs')) := by
  constructor
  · intro fs' h e hne
    cases hfind : fs.find? (fun x => x.name == sanitize_id id ++ ".md") with
    | none =>
      rw [update_note_absent dir fs id content hfind] at h
      cases h
      constructor
      · exact fun hm => List.mem_append_left _ hm
      · intro hm
        rcases List.mem_append.mp hm with hm | hm
        · exact hm
        · rcases List.mem_singleton.mp hm with rfl
          exact absurd rfl hne
    | some e0 =>
      by_cases hfile : e0.isFile = true
      · rw [update_note_found dir fs id content e0 hfind hfile] at h
        cases h
        constructor
        · intro hm
          have hee : writeEntry (sanitize_id id ++ ".md") content e = e := by
            unfold writeEntry
            rw [if_neg (by simpa using hne)]
          exact hee ▸ List.mem_map_of_mem _ hm
        · intro hm
          rcases List.mem_map.mp hm with ⟨x, hx, hgx⟩
          by_cases hxn : (x.name == sanitize_id id ++ ".md") = true
          · exfalso
            apply hne
            rw [← hgx, writeEntry_name]
            simpa using hxn
          · have hxx : writeEntry (sanitize_id id ++ ".md") content x = x := by
              unfold writeEntry
              rw [if_neg hxn]
            rw [← hgx, hxx]
            exact hx
      · rw [update_note_notfile dir fs id content e0 hfind hfile] at h
        cases h
  · intro fs' h e hne
    cases hfind : fs.find? (fun x => x.name == sanitize_id id ++ ".md") with
    | none =>
      rw [delete_note_absent dir fs id hfind] at h
      cases h
      exact Iff.rfl
    | some e0 =>
      by_cases hfile : e0.isFile = true
      · rw [delete_note_found dir fs id e0 hfind hfile] at h
        cases h
        constructor
        · intro hm
          exact List.mem_filter.mpr ⟨hm, by simpa using hne⟩
        · exact fun hm => (List.mem_filter.mp hm).1
      · rw [delete_note_notfile dir fs id e0 hfind hfile] at h
        cases h

/-- C10 witness: an unrelated file survives an update of another id. -/
theorem C10_frame_witness :
    (⟨"keep.md", true, some "k"⟩ : DirEntry)
      ∈ [(⟨"keep.md", true, some "k"⟩ : DirEntry), ⟨"q.md", true, some "X"⟩] := by
  have h := (C10_frame "/d" [⟨"keep.md", true, some "k"⟩, ⟨"q.md", true, some "old"⟩]
    "q" "X").1 [⟨"keep.md", true, some "k"⟩, ⟨"q.md", true, some "X"⟩]
    (by decide) ⟨"keep.md", true, some "k"⟩ (by decide)
  exact h.mp (by decide)

/-! The comparator of list_notes is a total preorder. -/

theorem lexLe_total (as bs : List Char) : (lexLe as bs || lexLe bs as) = true := by
  induction as generalizing bs with
  | nil => rw [lexLe]; simp
  | cons a as ih =>
    cases bs with
    | nil => rw [lexLe]; simp [lexLe]
    | cons b bs =>
      rw [lexLe, lexLe]
      rcases lt_trichotomy a b with hab | hab | hab
      · rw [if_pos hab]
        simp
      · rw [if_neg (by rw [hab]; exact lt_irrefl b), if_neg (by rw [hab]; exact lt_irrefl b),
          if_neg (by rw [hab]; exact lt_irrefl b), if_neg (by rw [hab]; exact lt_irrefl b)]
        exact ih bs
      · rw [if_neg (not_lt_of_gt hab), if_pos hab, if_pos hab]
        rfl

theorem lexLe_trans (as bs cs : List Char) (h1 : lexLe as bs = true)
    (h2 : lexLe bs cs = true) : lexLe as cs = true := by
  induction as generalizing bs cs with
  | nil => rw [lexLe]
  | cons a as ih =>
    cases bs with
    | nil => rw [lexLe] at h1; cases h1
    | cons b bs =>
      cases cs with
      | nil => rw [lexLe] at h2; cases h2
      | cons c cs =>
        rw [lexLe] at h1 h2 ⊢
        rcases lt_trichotomy a b with hab | hab | hab
        · rcases lt_trichotomy b c with hbc | hbc | hbc
          · rw [if_pos (lt_trans hab hbc)]
          · rw [if_pos (hbc ▸ hab)]
          · rw [if_neg (not_lt_of_gt hbc), if_pos hbc] at h2
            cases h2
        · subst hab
          rw [if_neg (lt_irrefl a), if_neg (lt_irrefl a)] at h1
          rcases lt_trichotomy a c with hac | hac | hac
          · rw [if_pos hac]
          · subst hac
            rw [if_neg (lt_irrefl a), if_neg (lt_irrefl a)] at h2 ⊢
            exact ih bs cs h1 h2
          · rw [if_neg (not_lt_of_gt hac), if_pos hac] at h2
            cases h2
        · rw [if_neg (not_lt_of_gt hab), if_pos hab] at h1
          cases h1

theorem descById_total (a b : NoteRecord) : (descById a b || descById b a) = true :=
  lexLe_total b.id.data a.id.data

theorem descById_trans (a b c : NoteRecord) (h1 : descById a b = true)
    (h2 : descById b c = true) : descById a c = true :=
  lexLe_trans c.id.data b.id.data a.id.data h2 h1

/-! Characterization of the collection phase of list_notes. -/

theorem keptEntry_false_of_skip (e : DirEntry)
    (h : (!e.isFile || !is_md_file e.name) = true) : keptEntry e = false := by
  unfold keptEntry
  rcases Bool.or_eq_true_iff.mp h with h1 | h1
  · rw [Bool.not_eq_true'] at h1
    rw [h1]
    rfl
  · rw [Bool.not_eq_true'] at h1
    rw [h1]
    simp

theorem keptEntry_false_of_empty_stem (e : DirEntry)
    (h : ((fileStem e.name).getD "").data.isEmpty = true) : keptEntry e = false := by
  unfold keptEntry
  rw [h]
  simp

theorem keptEntry_true (e : DirEntry)
    (h1 : ¬ (!e.isFile || !is_md_file e.name) = true)
    (h2 : ¬ ((fileStem e.name).getD "").data.isEmpty = true) : keptEntry e = true := by
  unfold keptEntry
  simp only [Bool.or_eq_true, Bool.not_eq_true'] at h1
  push_neg at h1
  rcases h1 with ⟨ha, hb⟩
  simp only [ne_eq, Bool.not_eq_false] at ha hb
  rw [ha, hb, Bool.eq_false_iff.mpr h2]
  rfl

theorem list_collect_ok (dir : String) (fs : List DirEntry) (l : List NoteRecord)
    (h : list_collect dir fs = .ok l) :
    l = (fs.filter keptEntry).map (entryRecord dir) := by
  induction fs generalizing l with
  | nil =>
    cases h
    rfl
  | cons e es ih =>
    rw [list_collect] at h
    by_cases h1 : (!e.isFile || !is_md_file e.name) = true
    · rw [if_pos h1] at h
      rw [List.filter_cons_of_neg (by rw [keptEntry_false_of_skip e h1]; intro hh; cases hh)]
      exact ih l h
    · rw [if_neg h1] at h
      dsimp only at h
      by_cases h2 : ((fileStem e.name).getD "").data.isEmpty = true
      · rw [if_pos h2] at h
        rw [List.filter_cons_of_neg
          (by rw [keptEntry_false_of_empty_stem e h2]; intro hh; cases hh)]
        exact ih l h
      · rw [if_neg h2] at h
        cases hc : e.content with
        | none =>
          rw [hc] at h
          cases h
        | some c =>
          rw [hc] at h
          cases hrec : list_collect dir es with
          | error msg =>
            rw [hrec] at h
            cases h
          | ok rest =>
            rw [hrec] at h
            cases h
            rw [List.filter_cons_of_pos (by rw [keptEntry_true e h1 h2])]
            rw [List.map_cons, ← ih rest hrec]
            have : entryRecord dir e
                = ⟨(fileStem e.name).getD "", dir ++ "/" ++ e.name, c⟩ := by
              unfold entryRecord
              rw [hc]
              rfl
            rw [this]

theorem list_collect_readable_ok (dir : String) (fs : List DirEntry)
    (h : ∀ e ∈ fs, keptEntry e = true → e.content ≠ none) :
    list_collect dir fs = .ok ((fs.filter keptEntry).map (entryRecord dir)) := by
  induction fs with
  | nil => rfl
  | cons e es ih =>
    have ih' := ih (fun x hx hk => h x (List.mem_cons_of_mem _ hx) hk)
    rw [list_collect]
    by_cases h1 : (!e.isFile || !is_md_file e.name) = true
    · rw [if_pos h1]
      rw [List.filter_cons_of_neg (by rw [keptEntry_false_of_skip e h1]; intro hh; cases hh)]
      exact ih'
    · rw [if_neg h1]
      dsimp only
      by_cases h2 : ((fileStem e.name).getD "").data.isEmpty = true
      · rw [if_pos h2]
        rw [List.filter_cons_of_neg
          (by rw [keptEntry_false_of_empty_stem e h2]; intro hh; cases hh)]
        exact ih'
      · rw [if_neg h2]
        have hkept := keptEntry_true e h1 h2
        cases hc : e.content with
        | none => exact absurd hc (h e (List.mem_cons_self e es) hkept)
        | some c =>
          rw [ih']
          rw [List.filter_cons_of_pos (by rw [hkept])]
          have : entryRecord dir e
              = ⟨(fileStem e.name).getD "", dir ++ "/" ++ e.name, c⟩ := by
            unfold entryRecord
            rw [hc]
            rfl
          rw [List.map_cons, this]
          rfl

theorem list_collect_error_of_unreadable (dir : String) (fs : List DirEntry)
    (h : ∃ e ∈ fs, keptEntry e = true ∧ e.content = none) :
    ∃ msg, list_collect dir fs = .error msg := by
  induction fs with
  | nil =>
    rcases h with ⟨e, he, _⟩
    cases he
  | cons e es ih =>
    rcases h with ⟨x, hx, hk, hc⟩
    rw [list_collect]
    by_cases h1 : (!e.isFile || !is_md_file e.name) = true
    · rw [if_pos h1]
      rcases List.mem_cons.mp hx with rfl | hx'
      · rw [keptEntry_false_of_skip x h1] at hk
        cases hk
      · exact ih ⟨x, hx', hk, hc⟩
    · rw [if_neg h1]
      dsimp only
      by_cases h2 : ((fileStem e.name).getD "").data.isEmpty = true
      · rw [if_pos h2]
        rcases List.mem_cons.mp hx with rfl | hx'
        · rw [keptEntry_false_of_empty_stem x h2] at hk
          cases hk
        · exact ih ⟨x, hx', hk, hc⟩
      · rw [if_neg h2]
        rcases List.mem_cons.mp hx with rfl | hx'
        · rw [hc]
          exact ⟨_, rfl⟩
        · cases hce : e.content with
          | none => exact ⟨_, rfl⟩
          | some c =>
            rcases ih ⟨x, hx', hk, hc⟩ with ⟨msg, hmsg⟩
            rw [hmsg]
            exact ⟨msg, rfl⟩

/-- C8: if any regular markdown file with a non-empty stem in the directory
cannot be read, the whole listing aborts with an error: list_notes returns
no partial result. -/
theorem C8_read_failure_aborts (dir : String) (fs : List DirEntry)
    (h : ∃ e ∈ fs, keptEntry e = true ∧ e.content = none) :
    ∃ msg, list_notes dir fs = .error msg := by
  rcases list_collect_error_of_unreadable dir fs h with ⟨msg, hmsg⟩
  refine ⟨msg, ?_⟩
  unfold list_notes
  rw [hmsg]
  rfl

/-- C8 witness: a directory with one readable and one unreadable markdown
file yields a listing error. -/
theorem C8_read_failure_aborts_witness :
    ∃ msg, list_notes "/d" [⟨"good.md", true, some "g"⟩, ⟨"bad.md", true, none⟩]
      = .error msg :=
  C8_read_failure_aborts "/d" [⟨"good.md", true, some "g"⟩, ⟨"bad.md", true, none⟩]
    ⟨⟨"bad.md", true, none⟩, by decide, by decide, rfl⟩

/-- C7: a successful listing returns exactly one record per regular file
whose extension equals md up to ASCII case and whose stem is non-empty
(so foo.txt never contributes), sorted descending by id under the plain
string comparison; it is empty when no file matches.  The records are the
stems, full paths and contents of the matching files. -/
theorem C7_list_filter_sorted (dir : String) (fs : List DirEntry)
    (res : List NoteRecord) (h : list_notes dir fs = .ok res) :
    res.Perm ((fs.filter keptEntry).map (entryRecord dir))
    ∧ res.Pairwise (fun a b => descById a b = true)
    ∧ (fs.filter keptEntry = [] → res = []) := by
  unfold list_notes at h
  cases hrec : list_collect dir fs with
  | error msg =>
    rw [hrec] at h
    cases h
  | ok l =>
    rw [hrec] at h
    cases h
    have hl := list_collect_ok dir fs l hrec
    refine ⟨?_, ?_, ?_⟩
    · rw [← hl]
      exact List.mergeSort_perm l descById
    · exact List.sorted_mergeSort descById_trans descById_total l
    · intro hempty
      rw [hempty] at hl
      rw [List.map_nil] at hl
      rw [hl]
      simp

/-- C7 witness: three notes named like the spec's ordering example come
back in descending string order: note_9, then note_50, then note_100. -/
theorem C7_list_filter_sorted_witness :
    (([⟨"note_9", "/d/note_9.md", ""⟩, ⟨"note_50", "/d/note_50.md", ""⟩,
        ⟨"note_100", "/d/note_100.md", ""⟩] : List NoteRecord).Perm
      (([(⟨"note_50.md", true, some ""⟩ : DirEntry), ⟨"note_100.md", true, some ""⟩,
        ⟨"foo.txt", true, some "t"⟩, ⟨"note_9.md", true, some ""⟩].filter
          keptEntry).map (entryRecord "/d")))
    ∧ ([⟨"note_9", "/d/note_9.md", ""⟩, ⟨"note_50", "/d/note_50.md", ""⟩,
        ⟨"note_100", "/d/note_100.md", ""⟩] : List NoteRecord).Pairwise
        (fun a b => descById a b = true) := by
  have hlist : list_notes "/d" [⟨"note_50.md", true, some ""⟩,
      ⟨"note_100.md", true, some ""⟩, ⟨"foo.txt", true, some "t"⟩,
      ⟨"note_9.md", true, some ""⟩]
      = .ok [⟨"note_9", "/d/note_9.md", ""⟩, ⟨"note_50", "/d/note_50.md", ""⟩,
        ⟨"note_100", "/d/note_100.md", ""⟩] := by
    have h50 : is_md_file "note_50.md" = true := by decide
    have h100 : is_md_file "note_100.md" = true := by decide
    have h9 : is_md_file "note_9.md" = true := by decide
    have htxt : is_md_file "foo.txt" = false := by decide
    have hs50 : fileStem "note_50.md" = some "note_50" := by decide
    have hs100 : fileStem "note_100.md" = some "note_100" := by decide
    have hs9 : fileStem "note_9.md" = some "note_9" := by decide
    simp only [list_notes, list_collect, h50, h100, h9, htxt, hs50, hs100, hs9]
    norm_num [Except.map]
    simp +decide [List.mergeSort, List.merge, descById, lexLe]
  have h := C7_list_filter_sorted "/d" [⟨"note_50.md", true, some ""⟩,
    ⟨"note_100.md", true, some ""⟩, ⟨"foo.txt", true, some "t"⟩,
    ⟨"note_9.md", true, some ""⟩] _ hlist
  exact ⟨h.1, h.2.1⟩

/-! Unfolding equations for the retry loop of create_note. -/

theorem create_loop_none (f : String → Option String) (id : String) (a : Nat)
    (he : f (candidate_id id a) = none) :
    create_loop f id a = .ok (candidate_id id a) := by
  rw [create_loop]
  rw [he]

theorem create_loop_step (f : String → Option String) (id : String) (a : Nat) (e : String)
    (ha : a + 1 < MAX_TRIES) (he : f (candidate_id id a) = some e) :
    create_loop f id a = create_loop f id (a + 1) := by
  conv_lhs => rw [create_loop]
  rw [he]
  dsimp only
  rw [if_neg (by omega)]

theorem create_loop_last (f : String → Option String) (id : String) (a : Nat) (e : String)
    (ha : a + 1 ≥ MAX_TRIES) (he : f (candidate_id id a) = some e) :
    create_loop f id a = .error ("Failed to create note file after 5 tries: " ++ e) := by
  rw [create_loop]
  rw [he]
  dsimp only
  rw [if_pos ha]

theorem create_loop_zero_error (f : String → Option String) (id : String)
    (e0 e1 e2 e3 e4 : String)
    (h0 : f (candidate_id id 0) = some e0) (h1 : f (candidate_id id 1) = some e1)
    (h2 : f (candidate_id id 2) = some e2) (h3 : f (candidate_id id 3) = some e3)
    (h4 : f (candidate_id id 4) = some e4) :
    create_loop f id 0 = .error ("Failed to create note file after 5 tries: " ++ e4) := by
  rw [create_loop_step f id 0 e0 (by decide) h0,
    create_loop_step f id 1 e1 (by decide) h1,
    create_loop_step f id 2 e2 (by decide) h2,
    create_loop_step f id 3 e3 (by decide) h3,
    create_loop_last f id 4 e4 (by decide) h4]

theorem create_loop_zero_ok (f : String → Option String) (id stem : String)
    (h : create_loop f id 0 = .ok stem) :
    ∃ i, i < MAX_TRIES ∧ f (candidate_id id i) = none ∧ stem = candidate_id id i
      ∧ ∀ j, j < i → f (candidate_id id j) ≠ none := by
  cases h0 : f (candidate_id id 0) with
  | none =>
    rw [create_loop_none f id 0 h0] at h
    cases h
    exact ⟨0, by decide, h0, rfl, fun j hj => absurd hj (Nat.not_lt_zero j)⟩
  | some e0 =>
    rw [create_loop_step f id 0 e0 (by decide) h0] at h
    cases h1 : f (candidate_id id 1) with
    | none =>
      rw [create_loop_none f id 1 h1] at h
      cases h
      refine ⟨1, by decide, h1, rfl, ?_⟩
      intro j hj
      have hj0 : j = 0 := by omega
      subst hj0
      rw [h0]
      exact Option.some_ne_none e0
    | some e1 =>
      rw [create_loop_step f id 1 e1 (by decide) h1] at h
      cases h2 : f (candidate_id id 2) with
      | none =>
        rw [create_loop_none f id 2 h2] at h
        cases h
        refine ⟨2, by decide, h2, rfl, ?_⟩
        intro j hj
        have hj01 : j = 0 ∨ j = 1 := by omega
        rcases hj01 with rfl | rfl
        · rw [h0]
          exact Option.some_ne_none e0
        · rw [h1]
          exact Option.some_ne_none e1
      | some e2 =>
        rw [create_loop_step f id 2 e2 (by decide) h2] at h
        cases h3 : f (candidate_id id 3) with
        | none =>
          rw [create_loop_none f id 3 h3] at h
          cases h
          refine ⟨3, by decide, h3, rfl, ?_⟩
          intro j hj
          have hj012 : j = 0 ∨ j = 1 ∨ j = 2 := by omega
          rcases hj012 with rfl | rfl | rfl
          · rw [h0]
            exact Option.some_ne_none e0
          · rw [h1]
            exact Option.some_ne_none e1
          · rw [h2]
            exact Option.some_ne_none e2
        | some e3 =>
          rw [create_loop_step f id 3 e3 (by decide) h3] at h
          cases h4 : f (candidate_id id 4) with
          | none =>
            rw [create_loop_none f id 4 h4] at h
            cases h
            refine ⟨4, by decide, h4, rfl, ?_⟩
            intro j hj
            have hj0123 : j = 0 ∨ j = 1 ∨ j = 2 ∨ j = 3 := by omega
            rcases hj0123 with rfl | rfl | rfl | rfl
            · rw [h0]
              exact Option.some_ne_none e0
            · rw [h1]
              exact Option.some_ne_none e1
            · rw [h2]
              exact Option.some_ne_none e2
            · rw [h3]
              exact Option.some_ne_none e3
          | some e4 =>
            rw [create_loop_last f id 4 e4 (by decide) h4] at h
            cases h

/-! The candidates of the retry loop are sanitizer outputs, so their stems
are safe file-name components. -/

theorem candidate_id_sanitized (genId : String) (i : Nat) :
    ∃ raw, candidate_id (sanitize_id genId) i = sanitize_id raw := by
  unfold candidate_id
  by_cases h : (i == 0) = true
  · rw [if_pos h]
    exact ⟨genId, rfl⟩
  · rw [if_neg h]
    exact ⟨_, rfl⟩

theorem candidate_props (genId : String) (i : Nat) :
    (candidate_id (sanitize_id genId) i).data ≠ []
    ∧ '.' ∉ (candidate_id (sanitize_id genId) i).data
    ∧ '/' ∉ (candidate_id (sanitize_id genId) i).data := by
  rcases candidate_id_sanitized genId i with ⟨raw, hr⟩
  rw [hr]
  exact ⟨sanitize_id_ne_empty raw, sanitize_id_no_dot raw, sanitize_id_no_slash raw⟩

theorem path_file_stem_note_path (dir stem : String) (hne : stem.data ≠ [])
    (hdot : '.' ∉ stem.data) (hsl : '/' ∉ stem.data) :
    path_file_stem (note_path dir stem) = some stem := by
  unfold path_file_stem note_path
  have hname : '/' ∉ (stem ++ ".md").data := by
    rw [String.data_append]
    intro hmem
    rcases List.mem_append.mp hmem with hm | hm
    · exact hsl hm
    · revert hm
      decide
  rw [path_file_name_join dir (stem ++ ".md") hname]
  exact fileStem_md stem hne hdot

/-! The state-derived exclusive-open oracle. -/

theorem fsOpen_cases (fs : List DirEntry) (stem : String) :
    (fsOpen fs stem = none ∧ ∀ e ∈ fs, ¬ e.name = stem ++ ".md")
    ∨ (fsOpen fs stem = some "File exists (os error 17)"
        ∧ ∃ e ∈ fs, e.name = stem ++ ".md") := by
  by_cases h : fs.any (fun e => e.name == stem ++ ".md") = true
  · right
    rcases List.any_eq_true.mp h with ⟨e, he, heq⟩
    exact ⟨by unfold fsOpen; rw [if_pos h], ⟨e, he, by simpa using heq⟩⟩
  · left
    refine ⟨by unfold fsOpen; rw [if_neg h], ?_⟩
    intro e he heq
    exact h (List.any_eq_true.mpr ⟨e, he, by simpa using heq⟩)

theorem fsOpen_eq_some (fs : List DirEntry) (stem : String)
    (h : ∃ e ∈ fs, e.name = stem ++ ".md") :
    fsOpen fs stem = some "File exists (os error 17)" := by
  rcases fsOpen_cases fs stem with ⟨_, hne⟩ | ⟨hs, _⟩
  · rcases h with ⟨e, he, heq⟩
    exact absurd heq (hne e he)
  · exact hs

theorem create_note_fs_of_loop_ok (dir genId : String) (fs : List DirEntry) (stem : String)
    (h : create_loop (fsOpen fs) (sanitize_id genId) 0 = .ok stem) :
    create_note_fs dir genId fs
      = .ok (⟨(path_file_stem (note_path dir stem)).getD (sanitize_id genId),
          note_path dir stem, ""⟩, fs ++ [⟨stem ++ ".md", true, some ""⟩]) := by
  unfold create_note_fs
  dsimp only
  rw [h]

theorem create_note_fs_of_loop_error (dir genId : String) (fs : List DirEntry) (e : String)
    (h : create_loop (fsOpen fs) (sanitize_id genId) 0 = .error e) :
    create_note_fs dir genId fs = .error e := by
  unfold create_note_fs
  dsimp only
  rw [h]

/-- C3: create uses exclusive create-if-absent semantics driven by the
existing file names, trying at most MAX_TRIES = 5 candidate names: the
sanitized generated id first, then that id with an underscore and the
attempt number appended and re-sanitized.  If all five candidates collide
with existing files the call returns the exhaustion error; on success it
created exactly the first free candidate, never touching an existing
file. -/
theorem C3_create_exclusive_retry (dir genId : String) (fs : List DirEntry) :
    ((∀ i, i < MAX_TRIES →
        ∃ e ∈ fs, e.name = candidate_id (sanitize_id genId) i ++ ".md") →
      create_note_fs dir genId fs
        = .error ("Failed to create note file after 5 tries: "
            ++ "File exists (os error 17)"))
    ∧ (∀ rec fs', create_note_fs dir genId fs = .ok (rec, fs') →
      ∃ i, i < MAX_TRIES
        ∧ (∀ j, j < i → ∃ e ∈ fs, e.name = candidate_id (sanitize_id genId) j ++ ".md")
        ∧ (∀ e ∈ fs, ¬ e.name = candidate_id (sanitize_id genId) i ++ ".md")
        ∧ rec.content = ""
        ∧ fs' = fs ++ [⟨candidate_id (sanitize_id genId) i ++ ".md", true, some ""⟩]) := by
  constructor
  · intro hall
    exact create_note_fs_of_loop_error dir genId fs _
      (create_loop_zero_error (fsOpen fs) (sanitize_id genId) _ _ _ _ _
        (fsOpen_eq_some fs _ (hall 0 (by decide)))
        (fsOpen_eq_some fs _ (hall 1 (by decide)))
        (fsOpen_eq_some fs _ (hall 2 (by decide)))
        (fsOpen_eq_some fs _ (hall 3 (by decide)))
        (fsOpen_eq_some fs _ (hall 4 (by decide))))
  · intro rec fs' h
    cases hloop : create_loop (fsOpen fs) (sanitize_id genId) 0 with
    | error e =>
      rw [create_note_fs_of_loop_error dir genId fs e hloop] at h
      cases h
    | ok stem =>
      rw [create_note_fs_of_loop_ok dir genId fs stem hloop] at h
      simp only [Except.ok.injEq, Prod.mk.injEq] at h
      rcases h with ⟨hrec, hfs⟩
      subst hrec
      subst hfs
      rcases create_loop_zero_ok _ _ _ hloop with ⟨i, hi, hnone, hstem, hprev⟩
      subst hstem
      refine ⟨i, hi, ?_, ?_, rfl, rfl⟩
      · intro j hj
        rcases fsOpen_cases fs (candidate_id (sanitize_id genId) j) with ⟨hn, _⟩ | ⟨_, hex⟩
        · exact absurd hn (hprev j hj)
        · exact hex
      · rcases fsOpen_cases fs (candidate_id (sanitize_id genId) i) with ⟨_, hne⟩ | ⟨hs, _⟩
        · exact hne
        · rw [hnone] at hs
          cases hs

/-- C3 witness: with all five candidate names already taken, create fails
with the exhaustion error; the theorem's exhaustion branch applies. -/
theorem C3_create_exclusive_retry_witness :
    create_note_fs "/d" "x!" [⟨"x.md", true, some ""⟩, ⟨"x_1.md", true, some ""⟩,
      ⟨"x_2.md", true, some ""⟩, ⟨"x_3.md", true, some ""⟩, ⟨"x_4.md", true, some ""⟩]
      = .error ("Failed to create note file after 5 tries: "
          ++ "File exists (os error 17)") := by
  apply (C3_create_exclusive_retry "/d" "x!" _).1
  intro i hi
  have hi5 : i < 5 := hi
  have hcases : i = 0 ∨ i = 1 ∨ i = 2 ∨ i = 3 ∨ i = 4 := by omega
  rcases hcases with rfl | rfl | rfl | rfl | rfl <;> decide

/-- C9: every failure of the exclusive open, whatever its message, consumes
one attempt and moves the loop to the next suffixed candidate, and five
failures in a row of any kind exhaust create with an error carrying the
message of the last failed open. -/
theorem C9_any_failure_consumes (dir genId : String) (f : String → Option String)
    (es : Nat → String)
    (h : ∀ i, i < MAX_TRIES → f (candidate_id (sanitize_id genId) i) = some (es i)) :
    (∀ a e, a + 1 < MAX_TRIES → f (candidate_id (sanitize_id genId) a) = some e →
      create_loop f (sanitize_id genId) a = create_loop f (sanitize_id genId) (a + 1))
    ∧ create_note dir genId f
      = .error ("Failed to create note file after 5 tries: " ++ es 4) := by
  refine ⟨fun a e ha he => create_loop_step f (sanitize_id genId) a e ha he, ?_⟩
  have hloop := create_loop_zero_error f (sanitize_id genId) (es 0) (es 1) (es 2) (es 3)
    (es 4) (h 0 (by decide)) (h 1 (by decide)) (h 2 (by decide)) (h 3 (by decide))
    (h 4 (by decide))
  unfold create_note
  dsimp only
  rw [hloop]

/-- C9 witness: five permission failures in a row exhaust create with the
last failure's message. -/
theorem C9_any_failure_consumes_witness :
    create_note "/d" "x!" (fun _ => some "permission denied (os error 13)")
      = .error ("Failed to create note file after 5 tries: "
          ++ "permission denied (os error 13)") :=
  (C9_any_failure_consumes "/d" "x!" (fun _ => some "permission denied (os error 13)")
    (fun _ => "permission denied (os error 13)") (fun _ _ => rfl)).2

/-- C4: when create succeeds on a directory whose kept markdown files are
all readable, its returned record has empty content, and listing the new
directory state succeeds and contains a record with exactly the returned
id and that same (empty) content. -/
theorem C4_create_then_list (dir genId : String) (fs : List DirEntry)
    (rec : NoteRecord) (fs' : List DirEntry)
    (hread : ∀ e ∈ fs, keptEntry e = true → e.content ≠ none)
    (hok : create_note_fs dir genId fs = .ok (rec, fs')) :
    rec.content = "" ∧ ∃ res, list_notes dir fs' = .ok res
      ∧ ∃ r ∈ res, r.id = rec.id ∧ r.content = rec.content := by
  cases hloop : create_loop (fsOpen fs) (sanitize_id genId) 0 with
  | error e =>
    rw [create_note_fs_of_loop_error dir genId fs e hloop] at hok
    cases hok
  | ok stem =>
    rw [create_note_fs_of_loop_ok dir genId fs stem hloop] at hok
    simp only [Except.ok.injEq, Prod.mk.injEq] at hok
    rcases hok with ⟨hrec, hfs⟩
    subst hrec
    subst hfs
    rcases create_loop_zero_ok _ _ _ hloop with ⟨i, _, _, hstem, _⟩
    have hprops := candidate_props genId i
    rw [← hstem] at hprops
    rcases hprops with ⟨hne, hdot, hsl⟩
    have hstem_eq : path_file_stem (note_path dir stem) = some stem :=
      path_file_stem_note_path dir stem hne hdot hsl
    refine ⟨rfl, ?_⟩
    have hread' : ∀ e ∈ fs ++ [(⟨stem ++ ".md", true, some ""⟩ : DirEntry)],
        keptEntry e = true → e.content ≠ none := by
      intro e he hk
      rcases List.mem_append.mp he with he | he
      · exact hread e he hk
      · rcases List.mem_singleton.mp he with rfl
        intro hc
        cases hc
    have hcollect := list_collect_readable_ok dir _ hread'
    refine ⟨_, by unfold list_notes; rw [hcollect]; rfl, ?_⟩
    have hkept : keptEntry ⟨stem ++ ".md", true, some ""⟩ = true := by
      unfold keptEntry
      dsimp only
      rw [is_md_file_md stem hne hdot, fileStem_md stem hne hdot]
      simp [List.isEmpty_iff, hne]
    have hmem : entryRecord dir ⟨stem ++ ".md", true, some ""⟩
        ∈ ((fs ++ [(⟨stem ++ ".md", true, some ""⟩ : DirEntry)]).filter
            keptEntry).map (entryRecord dir) :=
      List.mem_map_of_mem _ (List.mem_filter.mpr
        ⟨List.mem_append_right _ (List.mem_singleton.mpr rfl), hkept⟩)
    refine ⟨entryRecord dir ⟨stem ++ ".md", true, some ""⟩, ?_, ?_, rfl⟩
    · rw [List.mem_mergeSort]
      exact hmem
    · show (fileStem (stem ++ ".md")).getD ""
        = (path_file_stem (note_path dir stem)).getD (sanitize_id genId)
      rw [fileStem_md stem hne hdot, hstem_eq]
      rfl

/-- C4 witness: creating in an empty directory, then listing, returns the
created note with its exact id and empty content. -/
theorem C4_create_then_list_witness :
    ∃ res, list_notes "/d" [⟨"x.md", true, some ""⟩] = .ok res
      ∧ ∃ r ∈ res, r.id = "x" ∧ r.content = "" := by
  have hloop : create_loop (fsOpen []) (sanitize_id "x!") 0
      = .ok (candidate_id (sanitize_id "x!") 0) :=
    create_loop_none (fsOpen []) (sanitize_id "x!") 0 rfl
  have hcreate := create_note_fs_of_loop_ok "/d" "x!" [] _ hloop
  have hcreate2 : create_note_fs "/d" "x!" []
      = .ok (⟨"x", "/d/x.md", ""⟩, [⟨"x.md", true, some ""⟩]) := by
    rw [hcreate]
    decide
  have h := C4_create_then_list "/d" "x!" [] ⟨"x", "/d/x.md", ""⟩
    [⟨"x.md", true, some ""⟩] (fun e he => absurd he (List.not_mem_nil e)) hcreate2
  exact h.2

end NotesStore
